import Mathlib

/-!
Verification of the range-camera observation model (`KinectObserver`),
the rotary tracker builder (`RotaryTrackerBuilder`) and the arm-robot
animator (`ArmRobotAnimator`) of the dbrt repository, embedded shallowly
over the real numbers.
-/

namespace DBRT

/-- C++ `double` depth values as used by the observer: either a finite real
or infinite (`isinf` true).  The observer only distinguishes these two cases. -/
inductive DepthValue where
  | finite (r : ℝ)
  | infinite

/-- Shallow embedding of `std::isinf` on depth values. -/
def DepthValue.isinf : DepthValue → Bool
  | .finite _ => false
  | .infinite => true

/-- The Gauss error function, `erf x = 2/√π · ∫_0^x exp(-t²) dt`,
the mathematical function computed by C `erf`. -/
noncomputable def erf (x : ℝ) : ℝ :=
  2 / Real.sqrt Real.pi * ∫ t in (0:ℝ)..x, Real.exp (-t ^ 2)

/-- State of `sf::KinectObserver`: the five construction-time constants
plus the conditioning context (`prediction_`, `occlusion_`). -/
structure KinectObserver where
  exponential_rate : ℝ
  tail_weight : ℝ
  model_sigma : ℝ
  sigma_factor : ℝ
  max_depth : ℝ
  prediction : DepthValue
  occlusion : Bool

/-- The `KinectObserver` constructor: stores the parameters and derives
`exponential_rate_ = -log(0.5)/half_life_depth`.  The context fields
`prediction_` and `occlusion_` are uninitialized in the C++ code until
`Condition` is called; they are taken here as explicit extra arguments
`prediction₀`, `occlusion₀` standing for that indeterminate initial content.
The constructor performs no validation. -/
noncomputable def KinectObserver.make (tail_weight model_sigma sigma_factor
    half_life_depth max_depth : ℝ)
    (prediction₀ : DepthValue) (occlusion₀ : Bool) : KinectObserver :=
  { exponential_rate := -Real.log 0.5 / half_life_depth
    tail_weight := tail_weight
    model_sigma := model_sigma
    sigma_factor := sigma_factor
    max_depth := max_depth
    prediction := prediction₀
    occlusion := occlusion₀ }

/-- `KinectObserver::Condition(prediction, occlusion)`: stores the context. -/
def KinectObserver.Condition (o : KinectObserver) (prediction : DepthValue)
    (occlusion : Bool) : KinectObserver :=
  { o with prediction := prediction, occlusion := occlusion }

/-- `KinectObserver::Probability(observation)`, following the four branches of
the C++ code (`!occlusion_` / `occlusion_`, `isinf(prediction_)` / finite). -/
noncomputable def KinectObserver.Probability (o : KinectObserver)
    (observation : ℝ) : ℝ :=
  let sigma : ℝ := o.model_sigma + o.sigma_factor * observation * observation
  match o.occlusion, o.prediction with
  | false, .infinite => o.tail_weight / o.max_depth
  | false, .finite p =>
      o.tail_weight / o.max_depth
        + (1 - o.tail_weight)
            * Real.exp (-((p - observation) ^ 2 / (2 * sigma * sigma)))
            / (Real.sqrt (2 * Real.pi) * sigma)
  | true, .infinite =>
      o.tail_weight / o.max_depth
        + (1 - o.tail_weight) * o.exponential_rate
            * Real.exp (0.5 * o.exponential_rate
                * (-2 * observation + o.exponential_rate * sigma * sigma))
  | true, .finite p =>
      o.tail_weight / o.max_depth
        + (1 - o.tail_weight) * o.exponential_rate
            * Real.exp (0.5 * o.exponential_rate
                * (2 * p - 2 * observation + o.exponential_rate * sigma * sigma))
            * (1 + erf ((p - observation + o.exponential_rate * sigma * sigma)
                / (Real.sqrt 2 * sigma)))
            / (2 * (Real.exp (p * o.exponential_rate) - 1))

/-- `KinectObserver::LogProbability(observation) = std::log(Probability(observation))`,
with no check of the density's sign. -/
noncomputable def KinectObserver.LogProbability (o : KinectObserver)
    (observation : ℝ) : ℝ :=
  Real.log (o.Probability observation)

/-- Modelled from the spec: the spec's `LogProbability` contract, which demands
a NumericalError failure (here `none`) whenever the density is zero or negative;
this checked variant is absent from the source, whose `LogProbability` is the
unconditional `std::log` above.  Used to compare code against spec. -/
noncomputable def KinectObserver.LogProbabilityChecked (o : KinectObserver)
    (observation : ℝ) : Option ℝ :=
  if o.Probability observation ≤ 0 then none
  else some (Real.log (o.Probability observation))

/-- Modelled from the spec: construction that fails (returns `none`) on a zero
or negative `half_life_depth` or `max_depth` (the spec's ConfigurationError);
such validation is absent from the source constructor `KinectObserver.make`. -/
noncomputable def KinectObserver.makeChecked (tail_weight model_sigma
    sigma_factor half_life_depth max_depth : ℝ)
    (prediction₀ : DepthValue) (occlusion₀ : Bool) : Option KinectObserver :=
  if half_life_depth ≤ 0 ∨ max_depth ≤ 0 then none
  else some (KinectObserver.make tail_weight model_sigma sigma_factor
      half_life_depth max_depth prediction₀ occlusion₀)

/-- A call to the const method `Probability`: returns the density and the
(unmodified) observer state — the method assigns no member. -/
noncomputable def KinectObserver.ProbabilityCall (o : KinectObserver)
    (observation : ℝ) : ℝ × KinectObserver :=
  (o.Probability observation, o)

/-- A call to the const method `LogProbability`, with explicit state passing. -/
noncomputable def KinectObserver.LogProbabilityCall (o : KinectObserver)
    (observation : ℝ) : ℝ × KinectObserver :=
  (o.LogProbability observation, o)

/-- A sequence of `n+1` successive `Probability` calls with the same
observation, each threading the observer state left by the previous call. -/
noncomputable def KinectObserver.ProbabilityCallSeq (o : KinectObserver)
    (observation : ℝ) : ℕ → ℝ × KinectObserver
  | 0 => o.ProbabilityCall observation
  | n + 1 => (KinectObserver.ProbabilityCallSeq o observation n).2.ProbabilityCall observation

theorem continuous_gauss : Continuous fun t : ℝ => Real.exp (-t ^ 2) :=
  Real.continuous_exp.comp (continuous_pow 2).neg

theorem gauss_intervalIntegrable (a b : ℝ) :
    IntervalIntegrable (fun t : ℝ => Real.exp (-t ^ 2)) MeasureTheory.volume a b :=
  continuous_gauss.intervalIntegrable a b

theorem gauss_integral_le_half (x : ℝ) (hx : x ≤ 0) :
    (∫ t in x..(0:ℝ), Real.exp (-t ^ 2)) ≤ Real.sqrt Real.pi / 2 := by
  have hrefl : (∫ t in x..(0:ℝ), Real.exp (-t ^ 2))
      = ∫ t in (0:ℝ)..(-x), Real.exp (-t ^ 2) := by
    have h1 : (∫ t in x..(0:ℝ), Real.exp (-t ^ 2))
        = ∫ t in x..(0:ℝ), Real.exp (-(-t) ^ 2) := by simp
    rw [h1, intervalIntegral.integral_comp_neg fun t => Real.exp (-t ^ 2)]
    norm_num
  have hioc : (∫ t in (0:ℝ)..(-x), Real.exp (-t ^ 2))
      = ∫ t in Set.Ioc (0:ℝ) (-x), Real.exp (-t ^ 2) :=
    intervalIntegral.integral_of_le (by linarith)
  have hint : MeasureTheory.IntegrableOn (fun t : ℝ => Real.exp (-t ^ 2))
      (Set.Ioi 0) MeasureTheory.volume := by
    have h := (integrable_exp_neg_mul_sq one_pos).integrableOn
      (s := Set.Ioi (0:ℝ))
    simpa using h
  have hmono : (∫ t in Set.Ioc (0:ℝ) (-x), Real.exp (-t ^ 2))
      ≤ ∫ t in Set.Ioi (0:ℝ), Real.exp (-t ^ 2) :=
    MeasureTheory.setIntegral_mono_set hint
      (Filter.Eventually.of_forall fun t => (Real.exp_pos _).le)
      Set.Ioc_subset_Ioi_self.eventuallyLE
  have hval : (∫ t in Set.Ioi (0:ℝ), Real.exp (-t ^ 2))
      = Real.sqrt Real.pi / 2 := by
    have h := integral_gaussian_Ioi 1
    simpa using h
  rw [hrefl, hioc]
  rw [hval] at hmono
  exact hmono

/-- The error function is bounded below by `-1`. -/
theorem neg_one_le_erf (x : ℝ) : -1 ≤ erf x := by
  rcases le_or_lt 0 x with hx | hx
  · have h : 0 ≤ ∫ t in (0:ℝ)..x, Real.exp (-t ^ 2) :=
      intervalIntegral.integral_nonneg hx fun u _ => (Real.exp_pos _).le
    have h2 : 0 ≤ erf x := mul_nonneg (by positivity) h
    linarith
  · have hsym : (∫ t in (0:ℝ)..x, Real.exp (-t ^ 2))
        = -∫ t in x..(0:ℝ), Real.exp (-t ^ 2) :=
      intervalIntegral.integral_symm x 0
    have hI := gauss_integral_le_half x hx.le
    have hc : (0:ℝ) ≤ 2 / Real.sqrt Real.pi := by positivity
    have hmul : 2 / Real.sqrt Real.pi * (∫ t in x..(0:ℝ), Real.exp (-t ^ 2))
        ≤ 2 / Real.sqrt Real.pi * (Real.sqrt Real.pi / 2) :=
      mul_le_mul_of_nonneg_left hI hc
    have hone : 2 / Real.sqrt Real.pi * (Real.sqrt Real.pi / 2) = 1 := by
      have hp : Real.sqrt Real.pi ≠ 0 := (Real.sqrt_pos.mpr Real.pi_pos).ne'
      field_simp
    rw [hone] at hmul
    have : erf x = -(2 / Real.sqrt Real.pi * ∫ t in x..(0:ℝ), Real.exp (-t ^ 2)) := by
      rw [erf, hsym]; ring
    rw [this]
    linarith

/-- For nonpositive arguments the error function lies above its tangent line
at the origin: `erf x ≥ (2/√π)·x`. -/
theorem erf_ge_linear (x : ℝ) (hx : x ≤ 0) : 2 / Real.sqrt Real.pi * x ≤ erf x := by
  have hI : (∫ t in x..(0:ℝ), Real.exp (-t ^ 2)) ≤ -x := by
    have hmono : (∫ t in x..(0:ℝ), Real.exp (-t ^ 2)) ≤ ∫ _ in x..(0:ℝ), (1:ℝ) :=
      intervalIntegral.integral_mono_on hx (gauss_intervalIntegrable x 0)
        intervalIntegrable_const
        (fun t _ => Real.exp_le_one_iff.mpr (neg_nonpos.mpr (sq_nonneg t)))
    have hconst : (∫ _ in x..(0:ℝ), (1:ℝ)) = -x := by simp
    linarith
  have hsym : (∫ t in (0:ℝ)..x, Real.exp (-t ^ 2))
      = -∫ t in x..(0:ℝ), Real.exp (-t ^ 2) :=
    intervalIntegral.integral_symm x 0
  have hx' : x ≤ ∫ t in (0:ℝ)..x, Real.exp (-t ^ 2) := by rw [hsym]; linarith
  have hc : (0:ℝ) ≤ 2 / Real.sqrt Real.pi := by positivity
  calc 2 / Real.sqrt Real.pi * x
      ≤ 2 / Real.sqrt Real.pi * ∫ t in (0:ℝ)..x, Real.exp (-t ^ 2) :=
        mul_le_mul_of_nonneg_left hx' hc
    _ = erf x := rfl

/-- Kinematics interface: only the joint count is consumed by the builder. -/
structure KinematicsFromURDF where
  num_joints : ℕ

/-- Transition-model builder: `build(i)` yields joint `i`'s transition model. -/
structure FactorizedTransitionBuilder (Transition : Type) where
  build : ℕ → Transition

/-- Sensor-model builder: `build(i)` yields joint `i`'s sensor model. -/
structure RotarySensorBuilder (Sensor : Type) where
  build : ℕ → Sensor

/-- The tracker constructed by `RotaryTrackerBuilder::build`: it owns the
joint-filter vector and the kinematics. -/
structure RotaryTracker (JointFilter : Type) where
  joint_filters : List JointFilter
  kinematics : KinematicsFromURDF

/-- `dbrt::RotaryTrackerBuilder`: the kinematics plus the two model builders;
`joint_filter_mk` stands for the `JointFilter(*transition, *sensor)`
constructor of the template parameter. -/
structure RotaryTrackerBuilder (Transition Sensor JointFilter : Type) where
  kinematics : KinematicsFromURDF
  transition_builder : FactorizedTransitionBuilder Transition
  sensor_builder : RotarySensorBuilder Sensor
  joint_filter_mk : Transition → Sensor → JointFilter

/-- `RotaryTrackerBuilder::create_joint_filters`: the loop over joint indices
`0 ≤ i < num_joints` pushing `JointFilter(transition_builder.build(i),
sensor_builder.build(i))` onto an initially empty vector. -/
def RotaryTrackerBuilder.create_joint_filters
    {Transition Sensor JointFilter : Type}
    (b : RotaryTrackerBuilder Transition Sensor JointFilter) :
    List JointFilter :=
  (List.range b.kinematics.num_joints).foldl
    (fun acc i =>
      acc ++ [b.joint_filter_mk (b.transition_builder.build i)
        (b.sensor_builder.build i)]) []

/-- `RotaryTrackerBuilder::build`: constructs the tracker from the joint
filters and the kinematics. -/
def RotaryTrackerBuilder.build {Transition Sensor JointFilter : Type}
    (b : RotaryTrackerBuilder Transition Sensor JointFilter) :
    RotaryTracker JointFilter :=
  { joint_filters := b.create_joint_filters, kinematics := b.kinematics }

/-- A concrete two-joint builder instance used to witness the builder claim. -/
def exampleBuilder : RotaryTrackerBuilder ℕ ℕ (ℕ × ℕ) :=
  { kinematics := ⟨2⟩
    transition_builder := ⟨fun i => i⟩
    sensor_builder := ⟨fun i => i + 10⟩
    joint_filter_mk := Prod.mk }

/-- Pointwise update of an Eigen vector modeled as an index function:
the write `v[i] = x`. -/
def updateIdx (v : ℕ → ℝ) (i : ℕ) (x : ℝ) : ℕ → ℝ :=
  fun j => if j = i then x else v j

/-- `ArmRobotAnimator`: its state is the accumulated animation time `t_`. -/
structure ArmRobotAnimator where
  t : ℝ

/-- `ArmRobotAnimator::animate`: advances `t_` by `dt`, then writes
`current[i] + 0.1·dt/dilation·sin(t_/dilation)` into `next[i]` for the
left-arm indices `[6, 6+7)` and the right-arm indices `[6+7+8, 6+2·7+8)`;
all other entries of `next` are untouched. -/
noncomputable def ArmRobotAnimator.animate (a : ArmRobotAnimator)
    (current : ℕ → ℝ) (dt dilation : ℝ) (next : ℕ → ℝ) :
    ArmRobotAnimator × (ℕ → ℝ) :=
  let t := a.t + dt
  let next1 := (List.range' 6 7).foldl
    (fun v i => updateIdx v i
      (current i + 0.1 * dt / dilation * Real.sin (t / dilation))) next
  let next2 := (List.range' (6+7+8) 7).foldl
    (fun v i => updateIdx v i
      (current i + 0.1 * dt / dilation * Real.sin (t / dilation))) next1
  (⟨t⟩, next2)

/-- C1: after `Condition(pred, false)` with a finite prediction, the density is
`tail_weight/max_depth + (1-tail_weight)·exp(-(pred-obs)²/(2σ²))/(√(2π)·σ)`
with `σ = model_sigma + sigma_factor·obs²`. -/
theorem probability_not_occluded_finite (o : KinectObserver) (pred obs : ℝ) :
    (o.Condition (DepthValue.finite pred) false).Probability obs
      = o.tail_weight / o.max_depth
        + (1 - o.tail_weight)
            * Real.exp (-(pred - obs) ^ 2
              / (2 * (o.model_sigma + o.sigma_factor * obs ^ 2) ^ 2))
            / (Real.sqrt (2 * Real.pi)
              * (o.model_sigma + o.sigma_factor * obs ^ 2)) := by
  simp only [KinectObserver.Probability, KinectObserver.Condition]
  ring_nf

/-- C2: after `Condition(∞, false)`, the density is exactly
`tail_weight/max_depth`, independent of the observation. -/
theorem probability_not_occluded_infinite (o : KinectObserver) (obs : ℝ) :
    (o.Condition DepthValue.infinite false).Probability obs
      = o.tail_weight / o.max_depth := rfl

/-- C3: after `Condition(·, true)` the density is the exponential-Gaussian
convolution: with infinite prediction the untruncated form, with finite
prediction the form truncated to `[0, pred]` and renormalized by
`2·(exp(pred·exponential_rate) − 1)`, where `σ = model_sigma + sigma_factor·obs²`. -/
theorem probability_occluded (o : KinectObserver) (pred obs : ℝ) :
    ((o.Condition DepthValue.infinite true).Probability obs
      = o.tail_weight / o.max_depth
        + (1 - o.tail_weight) * o.exponential_rate
            * Real.exp (0.5 * o.exponential_rate
              * (o.exponential_rate * (o.model_sigma + o.sigma_factor * obs ^ 2) ^ 2
                  - 2 * obs)))
    ∧ ((o.Condition (DepthValue.finite pred) true).Probability obs
      = o.tail_weight / o.max_depth
        + (1 - o.tail_weight) * o.exponential_rate
            * Real.exp (0.5 * o.exponential_rate
              * (2 * pred - 2 * obs
                  + o.exponential_rate
                    * (o.model_sigma + o.sigma_factor * obs ^ 2) ^ 2))
            * (1 + erf ((pred - obs
                  + o.exponential_rate
                    * (o.model_sigma + o.sigma_factor * obs ^ 2) ^ 2)
                / (Real.sqrt 2 * (o.model_sigma + o.sigma_factor * obs ^ 2))))
            / (2 * (Real.exp (pred * o.exponential_rate) - 1))) := by
  constructor
  · simp only [KinectObserver.Probability, KinectObserver.Condition]
    ring_nf
  · simp only [KinectObserver.Probability, KinectObserver.Condition]
    ring_nf

theorem probability_nonneg_general (o : KinectObserver) (obs : ℝ)
    (htw0 : 0 < o.tail_weight) (htw1 : o.tail_weight < 1)
    (hms : 0 ≤ o.model_sigma) (hsf : 0 ≤ o.sigma_factor)
    (hrate : 0 < o.exponential_rate) (hmd : 0 < o.max_depth)
    (hpred : o.occlusion = true →
      ∀ p : ℝ, o.prediction = DepthValue.finite p → 0 ≤ p) :
    0 ≤ o.Probability obs := by
  obtain ⟨er, tw, ms, sf, md, pred, occ⟩ := o
  simp only at htw0 htw1 hms hsf hrate hmd hpred
  have hsigma : 0 ≤ ms + sf * obs * obs := by
    have h1 : 0 ≤ sf * obs * obs := by
      rw [mul_assoc]; exact mul_nonneg hsf (mul_self_nonneg obs)
    linarith
  have htm : 0 ≤ tw / md := (div_pos htw0 hmd).le
  have h1t : 0 ≤ 1 - tw := by linarith
  cases occ with
  | false =>
    cases pred with
    | infinite =>
      simpa only [KinectObserver.Probability] using htm
    | finite p =>
      simp only [KinectObserver.Probability]
      have h2 : 0 ≤ (1 - tw)
            * Real.exp (-((p - obs) ^ 2
              / (2 * (ms + sf * obs * obs) * (ms + sf * obs * obs))))
            / (Real.sqrt (2 * Real.pi) * (ms + sf * obs * obs)) :=
        div_nonneg (mul_nonneg h1t (Real.exp_pos _).le)
          (mul_nonneg (Real.sqrt_nonneg _) hsigma)
      linarith
  | true =>
    cases pred with
    | infinite =>
      simp only [KinectObserver.Probability]
      have h2 : 0 ≤ (1 - tw) * er
          * Real.exp (0.5 * er * (-2 * obs + er * (ms + sf * obs * obs)
              * (ms + sf * obs * obs))) :=
        mul_nonneg (mul_nonneg h1t hrate.le) (Real.exp_pos _).le
      linarith
    | finite p =>
      have hp : 0 ≤ p := hpred rfl p rfl
      simp only [KinectObserver.Probability]
      have hnum : 0 ≤ (1 - tw) * er
          * Real.exp (0.5 * er * (2 * p - 2 * obs
              + er * (ms + sf * obs * obs) * (ms + sf * obs * obs)))
          * (1 + erf ((p - obs + er * (ms + sf * obs * obs) * (ms + sf * obs * obs))
              / (Real.sqrt 2 * (ms + sf * obs * obs)))) := by
        have herf := neg_one_le_erf ((p - obs
            + er * (ms + sf * obs * obs) * (ms + sf * obs * obs))
            / (Real.sqrt 2 * (ms + sf * obs * obs)))
        have h3 : 0 ≤ (1 - tw) * er
            * Real.exp (0.5 * er * (2 * p - 2 * obs
                + er * (ms + sf * obs * obs) * (ms + sf * obs * obs))) :=
          mul_nonneg (mul_nonneg h1t hrate.le) (Real.exp_pos _).le
        exact mul_nonneg h3 (by linarith)
      have hden : 0 ≤ 2 * (Real.exp (p * er) - 1) := by
        have h4 : 1 ≤ Real.exp (p * er) :=
          Real.one_le_exp (mul_nonneg hp hrate.le)
        linarith
      have h5 := div_nonneg hnum hden
      linarith

/-- C5 (amended): for every valid parameter set and every conditioned context
whose occluded finite prediction is nonnegative, the density is nonnegative.
The occluded branch with a negative finite prediction is excluded: the
truncated convolution's renormalizer `2·(exp(pred·rate) − 1)` is negative
there and the code's density goes below zero (see the counterexample). -/
theorem probability_nonneg (tw ms sf hl md : ℝ) (p₀ : DepthValue) (oc₀ : Bool)
    (pred : DepthValue) (occ : Bool) (obs : ℝ)
    (htw0 : 0 < tw) (htw1 : tw < 1) (hms : 0 ≤ ms) (hsf : 0 ≤ sf)
    (hhl : 0 < hl) (hmd : 0 < md)
    (hpred : occ = true → ∀ p : ℝ, pred = DepthValue.finite p → 0 ≤ p) :
    0 ≤ ((KinectObserver.make tw ms sf hl md p₀ oc₀).Condition
        pred occ).Probability obs := by
  apply probability_nonneg_general
  · simpa [KinectObserver.Condition, KinectObserver.make] using htw0
  · simpa [KinectObserver.Condition, KinectObserver.make] using htw1
  · simpa [KinectObserver.Condition, KinectObserver.make] using hms
  · simpa [KinectObserver.Condition, KinectObserver.make] using hsf
  · simp only [KinectObserver.Condition, KinectObserver.make]
    have h05 : Real.log 0.5 = -Real.log 2 := by
      rw [show (0.5:ℝ) = 2⁻¹ by norm_num, Real.log_inv]
    rw [h05, neg_neg]
    exact div_pos (Real.log_pos one_lt_two) hhl
  · simpa [KinectObserver.Condition, KinectObserver.make] using hmd
  · simpa [KinectObserver.Condition, KinectObserver.make] using hpred

/-- C6: at the repository's default parameters, `Condition(2, false)` gives
`Probability(2) = 0.01/6 + 0.99·(1/(√(2π)·σ))` with `σ = 0.003 + 0.00142478·4`. -/
theorem probability_example :
    ((KinectObserver.make 0.01 0.003 0.00142478 1.0 6.0
        (DepthValue.finite 0) false).Condition (DepthValue.finite 2.0) false).Probability 2.0
      = 0.01 / 6
        + 0.99 * (1 / (Real.sqrt (2 * Real.pi) * (0.003 + 0.00142478 * 4))) := by
  have h2 : Real.sqrt 2 ≠ 0 := (Real.sqrt_pos.mpr two_pos).ne'
  have hp : Real.sqrt Real.pi ≠ 0 := (Real.sqrt_pos.mpr Real.pi_pos).ne'
  simp only [KinectObserver.Probability, KinectObserver.Condition, KinectObserver.make]
  norm_num
  field_simp
  ring

/-- C5 counterexample: with the valid parameters `tail_weight = 1/2`,
`model_sigma = 1`, `sigma_factor = 0`, `half_life_depth = 1`, `max_depth = 6`,
conditioning on the finite prediction `-1` with `occlusion = true` makes the
density at observation `0` strictly negative: the renormalizer
`2·(exp(pred·rate) − 1)` is negative for a negative prediction. -/
theorem probability_negative_example :
    ((KinectObserver.make (1/2) 1 0 1 6 (DepthValue.finite 0) false).Condition
        (DepthValue.finite (-1)) true).Probability 0 < 0 := by
  simp only [KinectObserver.Probability, KinectObserver.Condition, KinectObserver.make]
  rw [show -Real.log 0.5 / 1 = Real.log 2 by
    rw [show (0.5:ℝ) = 2⁻¹ by norm_num, Real.log_inv]; ring]
  norm_num
  rw [Real.exp_neg, Real.exp_log two_pos]
  norm_num
  have hL1 : (0.6931471803:ℝ) < Real.log 2 := Real.log_two_gt_d9
  have hL2 : Real.log 2 < 0.6931471808 := Real.log_two_lt_d9
  set L := Real.log 2 with hLdef
  set E := Real.exp (1/2 * L * (-2 + L)) with hEdef
  set B := 1 + DBRT.erf ((-1 + L) / Real.sqrt 2) with hBdef
  have hE : (0.547:ℝ) ≤ E := by
    have h := Real.add_one_le_exp (1/2 * L * (-2 + L))
    nlinarith [h, hL1, hL2, sq_nonneg (L - 0.6931471806)]
  have hz : (-1 + L) / Real.sqrt 2 ≤ 0 :=
    div_nonpos_iff.mpr (Or.inr ⟨by linarith, Real.sqrt_nonneg 2⟩)
  have herf := DBRT.erf_ge_linear _ hz
  have hsp : (1.7724:ℝ) ≤ Real.sqrt Real.pi :=
    (Real.le_sqrt (by norm_num) Real.pi_pos.le).mpr (by nlinarith [Real.pi_gt_d6])
  have hs2 : (1.4142:ℝ) ≤ Real.sqrt 2 :=
    (Real.le_sqrt (by norm_num) (by norm_num)).mpr (by norm_num)
  have hsp0 : (0:ℝ) < Real.sqrt Real.pi := Real.sqrt_pos.mpr Real.pi_pos
  have hs20 : (0:ℝ) < Real.sqrt 2 := Real.sqrt_pos.mpr two_pos
  have hquo : 2 / Real.sqrt Real.pi * ((-1 + L) / Real.sqrt 2)
      = 2 * (L - 1) / (Real.sqrt Real.pi * Real.sqrt 2) := by
    field_simp
    ring
  have hprodsq : (2.5065:ℝ) ≤ Real.sqrt Real.pi * Real.sqrt 2 := by
    nlinarith [hsp, hs2]
  have hlb : -(0.245:ℝ) ≤ 2 * (L - 1) / (Real.sqrt Real.pi * Real.sqrt 2) := by
    rw [le_div_iff₀ (by positivity)]
    nlinarith [hprodsq, hL1]
  have hB : (0.755:ℝ) ≤ B := by
    rw [hBdef]
    rw [hquo] at herf
    linarith
  have hE0 : (0:ℝ) < E := Real.exp_pos _
  have hEB : (0.547:ℝ) * 0.755 ≤ E * B :=
    mul_le_mul hE hB (by norm_num) hE0.le
  have hEBL : (0.547:ℝ) * 0.755 * 0.6931471803 ≤ E * B * L :=
    mul_le_mul hEB hL1.le (by norm_num)
      (mul_nonneg hE0.le (le_trans (by norm_num : (0:ℝ) ≤ 0.755) hB))
  linarith [hEBL]

/-- C4 (amended): `LogProbability` performs no density check; whenever the
density is positive the unchecked code agrees with the spec's checked contract,
but at zero or negative density the code still returns `log(Probability(obs))`
instead of failing (see the counterexample). -/
theorem logProbability_agrees_on_positive (o : KinectObserver) (obs : ℝ)
    (h : 0 < o.Probability obs) :
    o.LogProbabilityChecked obs = some (o.LogProbability obs) := by
  rw [KinectObserver.LogProbabilityChecked, if_neg (not_le.mpr h)]
  rfl

theorem logProbability_agrees_on_positive_witness :
    0 < ((KinectObserver.make 0.01 0.003 0.00142478 1 6 (DepthValue.finite 0)
          false).Condition DepthValue.infinite false).Probability 1
    ∧ ((KinectObserver.make 0.01 0.003 0.00142478 1 6 (DepthValue.finite 0)
          false).Condition DepthValue.infinite false).LogProbabilityChecked 1
      = some (((KinectObserver.make 0.01 0.003 0.00142478 1 6 (DepthValue.finite 0)
          false).Condition DepthValue.infinite false).LogProbability 1) := by
  have h : 0 < ((KinectObserver.make 0.01 0.003 0.00142478 1 6 (DepthValue.finite 0)
      false).Condition DepthValue.infinite false).Probability 1 := by
    norm_num [KinectObserver.Probability, KinectObserver.Condition, KinectObserver.make]
  exact ⟨h, logProbability_agrees_on_positive _ 1 h⟩

/-- C4 counterexample: with `tail_weight = 0` (and an infinite prediction, no
occlusion) the density at observation `1` is exactly `0`, yet the code's
`LogProbability` does not fail as the spec's checked contract demands: the
checked contract gives `none` while the code returns `log 0`. -/
theorem logProbability_no_failure_counterexample :
    ((KinectObserver.make 0 0.003 0.00142478 1 6 (DepthValue.finite 0)
          false).Condition DepthValue.infinite false).LogProbabilityChecked 1
      ≠ some (((KinectObserver.make 0 0.003 0.00142478 1 6 (DepthValue.finite 0)
          false).Condition DepthValue.infinite false).LogProbability 1) := by
  have hP : ((KinectObserver.make 0 0.003 0.00142478 1 6 (DepthValue.finite 0)
      false).Condition DepthValue.infinite false).Probability 1 = 0 := by
    norm_num [KinectObserver.Probability, KinectObserver.Condition, KinectObserver.make]
  rw [KinectObserver.LogProbabilityChecked, if_pos (le_of_eq hP)]
  exact fun h => Option.noConfusion h

/-- C7 (amended): the constructor performs no validation and always succeeds;
for a positive half-life depth the stored `exponential_rate = -log(0.5)/half_life_depth`
is positive and satisfies `exp(-exponential_rate·half_life_depth) = 1/2`. -/
theorem make_exponential_rate (tw ms sf hl md : ℝ) (p₀ : DepthValue)
    (oc₀ : Bool) (hhl : 0 < hl) :
    (KinectObserver.make tw ms sf hl md p₀ oc₀).exponential_rate
        = -Real.log 0.5 / hl
    ∧ 0 < (KinectObserver.make tw ms sf hl md p₀ oc₀).exponential_rate
    ∧ Real.exp (-((KinectObserver.make tw ms sf hl md p₀ oc₀).exponential_rate
        * hl)) = 1/2 := by
  refine ⟨rfl, ?_, ?_⟩
  · show 0 < -Real.log 0.5 / hl
    rw [show (0.5:ℝ) = 2⁻¹ by norm_num, Real.log_inv, neg_neg]
    exact div_pos (Real.log_pos one_lt_two) hhl
  · show Real.exp (-(-Real.log 0.5 / hl * hl)) = 1/2
    rw [show (0.5:ℝ) = 2⁻¹ by norm_num, Real.log_inv, neg_neg]
    rw [div_mul_cancel₀ _ hhl.ne']
    rw [Real.exp_neg, Real.exp_log two_pos]
    norm_num

theorem make_exponential_rate_witness :
    (0:ℝ) < 1
    ∧ ((KinectObserver.make 0.01 0.003 0.00142478 1 6 (DepthValue.finite 0)
          false).exponential_rate = -Real.log 0.5 / 1
      ∧ 0 < (KinectObserver.make 0.01 0.003 0.00142478 1 6 (DepthValue.finite 0)
          false).exponential_rate
      ∧ Real.exp (-((KinectObserver.make 0.01 0.003 0.00142478 1 6
          (DepthValue.finite 0) false).exponential_rate * 1)) = 1/2) :=
  ⟨by norm_num,
    make_exponential_rate 0.01 0.003 0.00142478 1 6 (DepthValue.finite 0) false
      (by norm_num)⟩

/-- C7 counterexample: constructing with `max_depth = -1` does not fail — the
code constructor succeeds and stores the invalid parameter, whereas the
spec-modelled checked construction returns `none` (ConfigurationError). -/
theorem make_no_validation_counterexample :
    KinectObserver.makeChecked 0.01 0.003 0.00142478 1 (-1)
        (DepthValue.finite 0) false
      ≠ some (KinectObserver.make 0.01 0.003 0.00142478 1 (-1)
        (DepthValue.finite 0) false) := by
  rw [KinectObserver.makeChecked, if_pos (by norm_num)]
  exact fun h => Option.noConfusion h

theorem probability_nonneg_witness :
    (0:ℝ) < 1/2 ∧ (1/2:ℝ) < 1 ∧ (0:ℝ) ≤ 1 ∧ (0:ℝ) ≤ 0 ∧ (0:ℝ) < 1 ∧ (0:ℝ) < 6
    ∧ (true = true → ∀ p : ℝ, DepthValue.finite 2 = DepthValue.finite p → 0 ≤ p)
    ∧ 0 ≤ ((KinectObserver.make (1/2) 1 0 1 6 (DepthValue.finite 0)
        false).Condition (DepthValue.finite 2) true).Probability 0 := by
  have hpred : true = true → ∀ p : ℝ, DepthValue.finite 2 = DepthValue.finite p → 0 ≤ p := by
    rintro - p hp
    cases hp
    norm_num
  exact ⟨by norm_num, by norm_num, by norm_num, le_refl 0, by norm_num, by norm_num,
    hpred,
    probability_nonneg (1/2) 1 0 1 6 (DepthValue.finite 0) false
      (DepthValue.finite 2) true 0 (by norm_num) (by norm_num) (by norm_num)
      (le_refl 0) (by norm_num) (by norm_num) hpred⟩

theorem foldl_append_singleton {α β : Type} (f : α → β) :
    ∀ (l : List α) (acc : List β),
      l.foldl (fun a i => a ++ [f i]) acc = acc ++ l.map f := by
  intro l
  induction l with
  | nil => intro acc; simp
  | cons x xs ih => intro acc; simp [ih]

/-- C8: `build()` owns exactly one joint filter per kinematic joint, the `i`-th
built from `transition_builder.build(i)` and `sensor_builder.build(i)`. -/
theorem create_joint_filters_spec {Transition Sensor JointFilter : Type}
    (b : RotaryTrackerBuilder Transition Sensor JointFilter) :
    b.build.joint_filters.length = b.kinematics.num_joints
    ∧ ∀ i : ℕ, i < b.kinematics.num_joints →
      b.build.joint_filters[i]? = some (b.joint_filter_mk
        (b.transition_builder.build i) (b.sensor_builder.build i)) := by
  have hmap : b.build.joint_filters
      = (List.range b.kinematics.num_joints).map
          (fun i => b.joint_filter_mk (b.transition_builder.build i)
            (b.sensor_builder.build i)) := by
    show b.create_joint_filters = _
    rw [RotaryTrackerBuilder.create_joint_filters, foldl_append_singleton]
    simp
  constructor
  · rw [hmap]
    simp
  · intro i hi
    rw [hmap, List.getElem?_map, List.getElem?_range hi]
    rfl

theorem create_joint_filters_spec_witness :
    1 < exampleBuilder.kinematics.num_joints
    ∧ exampleBuilder.build.joint_filters[1]?
      = some (exampleBuilder.joint_filter_mk
          (exampleBuilder.transition_builder.build 1)
          (exampleBuilder.sensor_builder.build 1)) :=
  ⟨by decide, (create_joint_filters_spec exampleBuilder).2 1 (by decide)⟩

theorem foldl_updateIdx (g : ℕ → ℝ) :
    ∀ (l : List ℕ) (v : ℕ → ℝ) (j : ℕ),
      (l.foldl (fun v i => updateIdx v i (g i)) v) j
        = if j ∈ l then g j else v j := by
  intro l
  induction l with
  | nil => intro v j; simp
  | cons x xs ih =>
    intro v j
    simp only [List.foldl_cons, ih, List.mem_cons]
    by_cases hj : j ∈ xs
    · simp [hj]
    · by_cases hx : j = x
      · subst hx
        simp [hj, updateIdx]
      · simp [hj, hx, updateIdx]

/-- C9: `animate` accumulates `t_ += dt` first, then writes exactly the
components `6..12` and `21..27` of `next`, each set to
`current[i] + 0.1·dt/dilation·sin(t/dilation)` with `t` the accumulated time
including the current `dt` (hence both arms receive the identical increment);
every other component of `next` is left unchanged. -/
theorem animate_spec (a : ArmRobotAnimator) (current next : ℕ → ℝ)
    (dt dilation : ℝ) :
    (a.animate current dt dilation next).1.t = a.t + dt
    ∧ ∀ i : ℕ, (a.animate current dt dilation next).2 i
      = if (6 ≤ i ∧ i ≤ 12) ∨ (21 ≤ i ∧ i ≤ 27)
        then current i + 0.1 * dt / dilation * Real.sin ((a.t + dt) / dilation)
        else next i := by
  constructor
  · rfl
  · intro i
    simp only [ArmRobotAnimator.animate]
    rw [foldl_updateIdx, foldl_updateIdx]
    simp only [List.mem_range'_1]
    norm_num
    split_ifs <;> first | rfl | omega

/-- C10: `Probability` and `LogProbability` do not modify the stored context:
after one `Condition` call, the observer state is returned unchanged by each
query, and every call in a sequence of `Probability` calls with the same
observation yields the same value — the context is not consumed. -/
theorem probability_calls_pure (o : KinectObserver) (pred : DepthValue)
    (occ : Bool) (obs : ℝ) :
    ((o.Condition pred occ).ProbabilityCall obs).2 = o.Condition pred occ
    ∧ ((o.Condition pred occ).LogProbabilityCall obs).2 = o.Condition pred occ
    ∧ ∀ n : ℕ, (o.Condition pred occ).ProbabilityCallSeq obs n
        = ((o.Condition pred occ).Probability obs, o.Condition pred occ) := by
  refine ⟨rfl, rfl, ?_⟩
  intro n
  induction n with
  | zero => rfl
  | succ n ih =>
    rw [KinectObserver.ProbabilityCallSeq, ih]
    rfl

end DBRT
